import Mathlib

/-!
# Vap: compile-time execution-policy and expression-trait resolution

A shallow embedding of `src/detail/traits.h`.  The header is pure type-level
C++: every template is a function from types to types (or to a `bool`
constant).  Types are therefore embedded as the values of one inductive
universe `Ty`, `std::is_same` is decidable equality on it, a template with a
`value` member is a `Bool`-valued function and a template with a `type`
member is a `Ty`-valued function.  A template that has no definition for its
argument (an incomplete primary template, a missing member type) is `none`.
-/

namespace vap

/-! ## Types -/

/-- The fundamental arithmetic types of C++ (the integral and floating-point
types), the types on which `std::is_arithmetic` holds up to cv-qualification. -/
inductive Arithmetic where
  | bool | char | signed_char | unsigned_char | wchar_t | char16_t | char32_t
  | short | unsigned_short | int | unsigned_int | long | unsigned_long
  | long_long | unsigned_long_long
  | float | double | long_double
  deriving DecidableEq, Repr

/-- The universe of C++ types the header computes with.

* `arith`, `void`, `const_`, `volatile_`, `pointer`, `lvalue_ref`, `named`:
  ordinary C++ types (`named` is any class or enum type declared elsewhere,
  such as an operator functor, a construct policy or a backing container);
* `execution_policy`, `absorption_policy`, `serial_execution`,
  `parallel_execution`: the four policy tags of `vap/execution_policy.h`
  (the spec calls them Unconstrained, Absorbing, Serial, Parallel);
* `Expression`, `Binary`, `Unary`, `Scalar`, `vector`: the class templates
  forward-declared at lines 11-25;
* `container_iterator C`, `container_const_iterator C`: the member types
  `C::iterator` and `C::const_iterator` of a backing container;
* `binary_iterator e op l r`, `unary_iterator e op b`, `scalar_iterator e t`:
  the Iterator Factory handles `iterators::binary_iterator<e>::type<op, l, r>`,
  `iterators::unary_iterator<e>::type<op, b>` and
  `iterators::scalar_iterator<e>::type<t>` of `vap/iterators/iterators.h`. -/
inductive Ty where
  | arith (a : Arithmetic)
  | void
  | const_ (t : Ty)
  | volatile_ (t : Ty)
  | pointer (t : Ty)
  | lvalue_ref (t : Ty)
  | named (name : String)
  | execution_policy
  | absorption_policy
  | serial_execution
  | parallel_execution
  | Expression (D : Ty)
  | Binary (L R Op Exec : Ty)
  | Unary (E Op Exec : Ty)
  | Scalar (T : Ty)
  | vector (T Ctor C Exec : Ty)
  | container_iterator (C : Ty)
  | container_const_iterator (C : Ty)
  | binary_iterator (exec Op left right : Ty)
  | unary_iterator (exec Op base : Ty)
  | scalar_iterator (exec T : Ty)
  deriving DecidableEq, Repr

/-- The standard trait `std::is_same<A, B>::value`. -/
def is_same (A B : Ty) : Bool := decide (A = B)

/-- The standard trait `std::is_arithmetic<T>::value`: an integral or
floating-point type, possibly cv-qualified. -/
def is_arithmetic : Ty → Bool
  | .arith _ => true
  | .const_ t => is_arithmetic t
  | .volatile_ t => is_arithmetic t
  | _ => false

/-! ## Expression classifier and promotion (lines 31-58) -/

/-- Trait `detail::is_expression<T>::value`: `false_type` in general, `true_type`
for the five listed class templates. -/
def is_expression : Ty → Bool
  | .Expression _ => true
  | .Binary _ _ _ _ => true
  | .Unary _ _ _ => true
  | .Scalar _ => true
  | .vector _ _ _ _ => true
  | _ => false

/-- Alias `detail::vectorize_t<T>`, that is
`std::conditional<std::is_arithmetic<T>::value, Scalar<T>, T>::type`. -/
def vectorize_t (T : Ty) : Ty :=
  if is_arithmetic T then .Scalar T else T

/-! ## Execution policy lattice (lines 60-87) -/

/-- Trait `detail::is_exec<T>::value`: true exactly for the four policy tags. -/
def is_exec : Ty → Bool
  | .execution_policy => true
  | .absorption_policy => true
  | .serial_execution => true
  | .parallel_execution => true
  | _ => false

/-- Trait `detail::is_strong_exec<Exec>::value` (lines 75-80). -/
def is_strong_exec (Exec : Ty) : Bool :=
  is_same Exec .parallel_execution || is_same Exec .serial_execution

/-- Trait `detail::is_weak_exec<Exec>::value` (lines 82-87). -/
def is_weak_exec (Exec : Ty) : Bool :=
  is_same Exec .execution_policy || is_same Exec .absorption_policy

/-! ## Execution resolution engine (lines 90-143) -/

/-- Template `detail::get_strongest_exec<T1, Ts...>::type`.  The empty tail is the
single-argument specialisation (lines 107-114), a non-empty tail the
variadic primary template (lines 97-104). -/
def get_strongest_exec (T1 : Ty) : List Ty → Ty
  | [] => if is_strong_exec T1 then T1 else .absorption_policy
  | T2 :: Ts => if is_strong_exec T1 then T1 else get_strongest_exec T2 Ts

/-- Trait `detail::compatible_execs<Exec1, Exec2>::value` (lines 135-143). -/
def compatible_execs (Exec1 Exec2 : Ty) : Bool :=
  is_same Exec1 .absorption_policy ||
  is_same Exec2 .absorption_policy ||
  is_same Exec1 Exec2

/-! ## Expression traits registry (lines 149-221) -/

/-- The member types of one `expression_traits` specialisation. -/
structure TraitBundle where
  exec : Ty
  value_type : Ty
  iterator : Ty
  const_iterator : Ty
  deriving DecidableEq, Repr

/-- Template `expressions::expression_traits<T>`.  The primary template is declared
and never defined, so only the four specialisations give a bundle.

Modelled from the spec: the member types `L::exec`, `L::value_type`,
`L::iterator` and `L::const_iterator` that the Binary and Unary
specialisations read off their operand classes.  The operand classes are
defined in headers outside `src/`; following the spec (section 4.4, the
children's already-resolved policies, value types and traversal
descriptors) they are the components of the operand's own trait bundle, and
an operand without a bundle leaves the parent without one. -/
def expression_traits : Ty → Option TraitBundle
  | .Binary L R Op Exec =>
    match expression_traits L, expression_traits R with
    | some l, some r =>
      let exec := get_strongest_exec Exec [l.exec, r.exec]
      some { exec := exec
             value_type := l.value_type
             iterator := .binary_iterator exec Op l.iterator r.iterator
             const_iterator := .binary_iterator exec Op l.const_iterator r.const_iterator }
    | _, _ => none
  | .Unary T Op Exec =>
    match expression_traits T with
    | some t =>
      let exec := get_strongest_exec Exec [t.exec]
      some { exec := exec
             value_type := t.value_type
             iterator := .unary_iterator exec Op t.iterator
             const_iterator := .unary_iterator exec Op t.const_iterator }
    | none => none
  | .Scalar T =>
    some { exec := .absorption_policy
           value_type := T
           iterator := .scalar_iterator .absorption_policy T
           const_iterator := .scalar_iterator .absorption_policy T }
  | .vector T _ C Exec =>
    some { exec := Exec
           value_type := T
           iterator := .container_iterator C
           const_iterator := .container_const_iterator C }
  | _ => none

/-! ## Policy resolution over nodes (lines 90-94 and 116-133) -/

/-- Modelled from the spec: the member type `T::exec` of a node class `T`,
read by `exec_extractor` and `get_exec`.  The node classes are defined in
headers outside `src/`; as in `expression_traits`, the member is the
resolved policy of the node's own trait bundle, and a type without a bundle
has no such member. -/
def member_exec (T : Ty) : Option Ty :=
  (expression_traits T).map TraitBundle.exec

/-- Template `detail::exec_extractor<T>::type` (lines 90-94), that is
`typename T::exec`. -/
def exec_extractor (T : Ty) : Option Ty :=
  member_exec T

/-- The pack expansion `typename exec_extractor<Ts>::type...` of line 133:
every element of the pack has to have the member. -/
def exec_extractor_pack : List Ty → Option (List Ty)
  | [] => some []
  | T :: Ts =>
    match exec_extractor T, exec_extractor_pack Ts with
    | some e, some es => some (e :: es)
    | _, _ => none

/-- The specialisation `detail::get_exec<T>` (lines 119-120):
`get_strongest_exec<typename T::exec>`. -/
def get_exec_single (T : Ty) : Option Ty :=
  match member_exec T with
  | some e => some (get_strongest_exec e [])
  | none => none

/-- The specialisation `detail::get_exec<T, Ts...>` (lines 131-133):
`get_strongest_exec<exec_extractor<T>::type, exec_extractor<Ts>::type...>`. -/
def get_exec_variadic (T : Ty) (Ts : List Ty) : Option Ty :=
  match exec_extractor T, exec_extractor_pack Ts with
  | some e, some es => some (get_strongest_exec e es)
  | _, _ => none

/-- Template `detail::get_exec<Ts...>::type`.  The primary template (lines
116-117) is only declared, so the empty pack has no result; one argument
selects the more specialised `get_exec<T>`, two or more the variadic
specialisation. -/
def get_exec : List Ty → Option Ty
  | [] => none
  | [T] => get_exec_single T
  | T :: Ts => get_exec_variadic T Ts

/-! ## Tree views used to state the fold properties -/

/-- The pre-order list of declared policies of an expression tree: a Binary
node contributes its declared policy, then its left subtree's list, then its
right subtree's list; a Unary node its declared policy, then its operand's
list; a Scalar contributes `absorption_policy`; a container leaf its
declared policy. -/
def declared_preorder : Ty → List Ty
  | .Binary L R _ Exec => Exec :: (declared_preorder L ++ declared_preorder R)
  | .Unary T _ Exec => Exec :: declared_preorder T
  | .Scalar _ => [.absorption_policy]
  | .vector _ _ _ Exec => [Exec]
  | _ => []

/-- The value type of the leftmost leaf of an expression tree: follow the
left child of a Binary node and the operand of a Unary node down to a
`Scalar<T>` or a container leaf with value type `T`. -/
def leftmost_leaf_value_type : Ty → Option Ty
  | .Binary L _ _ _ => leftmost_leaf_value_type L
  | .Unary T _ _ => leftmost_leaf_value_type T
  | .Scalar T => some T
  | .vector T _ _ _ => some T
  | _ => none

/-! ## Shared lemmas -/

theorem is_strong_exec_iff (P : Ty) :
    is_strong_exec P = true ↔ P = .parallel_execution ∨ P = .serial_execution := by
  simp [is_strong_exec, is_same]

theorem is_weak_exec_iff (P : Ty) :
    is_weak_exec P = true ↔ P = .execution_policy ∨ P = .absorption_policy := by
  simp [is_weak_exec, is_same]

theorem is_exec_iff (P : Ty) :
    is_exec P = true ↔
      P = .execution_policy ∨ P = .absorption_policy ∨
      P = .serial_execution ∨ P = .parallel_execution := by
  cases P <;> simp [is_exec]

theorem is_weak_not_strong (P : Ty) (h : is_weak_exec P = true) :
    is_strong_exec P = false := by
  rcases (is_weak_exec_iff P).1 h with rfl | rfl <;> rfl

theorem compatible_execs_iff_eq (P1 P2 : Ty) :
    compatible_execs P1 P2 = true ↔
      P1 = .absorption_policy ∨ P2 = .absorption_policy ∨ P1 = P2 := by
  simp [compatible_execs, is_same, or_assoc]

theorem get_strongest_exec_nil (T1 : Ty) :
    get_strongest_exec T1 [] = if is_strong_exec T1 then T1 else .absorption_policy := rfl

theorem get_strongest_exec_cons (T1 T2 : Ty) (Ts : List Ty) :
    get_strongest_exec T1 (T2 :: Ts) =
      if is_strong_exec T1 then T1 else get_strongest_exec T2 Ts := rfl

theorem get_strongest_exec_of_strong (T1 : Ty) (Ts : List Ty)
    (h : is_strong_exec T1 = true) : get_strongest_exec T1 Ts = T1 := by
  cases Ts <;> simp [get_strongest_exec, h]

theorem get_strongest_exec_eq_find (T1 : Ty) (Ts : List Ty) :
    get_strongest_exec T1 Ts =
      ((T1 :: Ts).find? is_strong_exec).getD .absorption_policy := by
  induction Ts generalizing T1 with
  | nil =>
    by_cases h : is_strong_exec T1 = true <;> simp [get_strongest_exec, List.find?, h]
  | cons T2 Ts ih =>
    by_cases h : is_strong_exec T1 = true
    · simp [get_strongest_exec, List.find?, h]
    · have h0 : is_strong_exec T1 = false := by simpa using h
      rw [get_strongest_exec_cons, List.find?_cons_of_neg _ h, ih T2]
      simp [h0]

theorem get_strongest_exec_resolved (T1 : Ty) (Ts : List Ty) :
    get_strongest_exec T1 Ts = .absorption_policy ∨
    get_strongest_exec T1 Ts = .serial_execution ∨
    get_strongest_exec T1 Ts = .parallel_execution := by
  induction Ts generalizing T1 with
  | nil =>
    by_cases h : is_strong_exec T1 = true
    · rcases (is_strong_exec_iff T1).1 h with rfl | rfl <;> simp [get_strongest_exec, h]
    · simp [get_strongest_exec, h]
  | cons T2 Ts ih =>
    by_cases h : is_strong_exec T1 = true
    · rcases (is_strong_exec_iff T1).1 h with rfl | rfl <;> simp [get_strongest_exec, h]
    · have h0 : is_strong_exec T1 = false := by simpa using h
      simpa [get_strongest_exec, h0] using ih T2

theorem get_strongest_exec_of_not_strong (T1 T2 : Ty) (Ts : List Ty)
    (h : is_strong_exec T1 = false) :
    get_strongest_exec T1 (T2 :: Ts) = get_strongest_exec T2 Ts := by
  simp [get_strongest_exec, h]

theorem get_strongest_exec_pair (D e1 e2 : Ty) (h : is_strong_exec D = false) :
    get_strongest_exec D [e1, e2] =
      if is_strong_exec e1 then e1
      else if is_strong_exec e2 then e2 else .absorption_policy := by
  simp [get_strongest_exec, h]

theorem get_strongest_exec_single (D e1 : Ty) (h : is_strong_exec D = false) :
    get_strongest_exec D [e1] =
      if is_strong_exec e1 then e1 else .absorption_policy := by
  simp [get_strongest_exec, h]

theorem expression_traits_Binary (L R Op Exec : Ty) (l r : TraitBundle)
    (hL : expression_traits L = some l) (hR : expression_traits R = some r) :
    expression_traits (.Binary L R Op Exec) =
      some { exec := get_strongest_exec Exec [l.exec, r.exec]
             value_type := l.value_type
             iterator := .binary_iterator (get_strongest_exec Exec [l.exec, r.exec]) Op
               l.iterator r.iterator
             const_iterator := .binary_iterator (get_strongest_exec Exec [l.exec, r.exec]) Op
               l.const_iterator r.const_iterator } := by
  simp [expression_traits, hL, hR]

theorem expression_traits_Unary (T Op Exec : Ty) (t : TraitBundle)
    (hT : expression_traits T = some t) :
    expression_traits (.Unary T Op Exec) =
      some { exec := get_strongest_exec Exec [t.exec]
             value_type := t.value_type
             iterator := .unary_iterator (get_strongest_exec Exec [t.exec]) Op t.iterator
             const_iterator :=
               .unary_iterator (get_strongest_exec Exec [t.exec]) Op t.const_iterator } := by
  simp [expression_traits, hT]

theorem expression_traits_Scalar (T : Ty) :
    expression_traits (.Scalar T) =
      some { exec := .absorption_policy
             value_type := T
             iterator := .scalar_iterator .absorption_policy T
             const_iterator := .scalar_iterator .absorption_policy T } := by
  simp [expression_traits]

theorem expression_traits_vector (T Ctor C Exec : Ty) :
    expression_traits (.vector T Ctor C Exec) =
      some { exec := Exec
             value_type := T
             iterator := .container_iterator C
             const_iterator := .container_const_iterator C } := by
  simp [expression_traits]

theorem expression_traits_Binary_inv (L R Op Exec : Ty) (b : TraitBundle)
    (h : expression_traits (.Binary L R Op Exec) = some b) :
    ∃ l r, expression_traits L = some l ∧ expression_traits R = some r ∧
      b.exec = get_strongest_exec Exec [l.exec, r.exec] := by
  cases hL : expression_traits L with
  | none => simp [expression_traits, hL] at h
  | some l =>
    cases hR : expression_traits R with
    | none => simp [expression_traits, hL, hR] at h
    | some r =>
      rw [expression_traits_Binary L R Op Exec l r hL hR] at h
      exact ⟨l, r, rfl, rfl, by rw [← Option.some.inj h]⟩

theorem expression_traits_Unary_inv (T Op Exec : Ty) (b : TraitBundle)
    (h : expression_traits (.Unary T Op Exec) = some b) :
    ∃ t, expression_traits T = some t ∧ b.exec = get_strongest_exec Exec [t.exec] := by
  cases hT : expression_traits T with
  | none => simp [expression_traits, hT] at h
  | some t =>
    rw [expression_traits_Unary T Op Exec t hT] at h
    exact ⟨t, rfl, by rw [← Option.some.inj h]⟩

theorem is_expression_not_arithmetic (T : Ty) (h : is_expression T = true) :
    is_arithmetic T = false := by
  cases T <;> simp [is_expression] at h <;> simp [is_arithmetic]

theorem is_strong_exec_absorption :
    is_strong_exec .absorption_policy = false := by decide

theorem compatible_execs_comm (P1 P2 : Ty) :
    compatible_execs P1 P2 = compatible_execs P2 P1 := by
  rw [Bool.eq_iff_iff, compatible_execs_iff_eq, compatible_execs_iff_eq]
  constructor
  · rintro (h | h | h)
    · exact Or.inr (Or.inl h)
    · exact Or.inl h
    · exact Or.inr (Or.inr h.symm)
  · rintro (h | h | h)
    · exact Or.inr (Or.inl h)
    · exact Or.inl h
    · exact Or.inr (Or.inr h.symm)

theorem get_strongest_exec_swap (D L R : Ty) (h : compatible_execs L R = true) :
    get_strongest_exec D [L, R] = get_strongest_exec D [R, L] := by
  by_cases hD : is_strong_exec D = true
  · rw [get_strongest_exec_of_strong D _ hD, get_strongest_exec_of_strong D _ hD]
  · have h0 : is_strong_exec D = false := by simpa using hD
    rw [get_strongest_exec_pair D L R h0, get_strongest_exec_pair D R L h0]
    rcases (compatible_execs_iff_eq L R).1 h with e | e | e
    · subst e
      simp [is_strong_exec_absorption]
    · subst e
      simp [is_strong_exec_absorption]
    · subst e
      rfl

theorem get_strongest_exec_compatible (D L R : Ty) (hD : is_weak_exec D = true)
    (h : compatible_execs L R = true) :
    compatible_execs (get_strongest_exec D [L, R]) L = true ∧
    compatible_execs (get_strongest_exec D [L, R]) R = true := by
  have h0 : is_strong_exec D = false := is_weak_not_strong D hD
  rw [get_strongest_exec_pair D L R h0]
  by_cases hL : is_strong_exec L = true
  · simp only [hL, if_true]
    exact ⟨(compatible_execs_iff_eq L L).2 (Or.inr (Or.inr rfl)), h⟩
  · have hL0 : is_strong_exec L = false := by simpa using hL
    by_cases hR : is_strong_exec R = true
    · simp only [hL0, hR, if_true, Bool.false_eq_true, if_false]
      refine ⟨?_, (compatible_execs_iff_eq R R).2 (Or.inr (Or.inr rfl))⟩
      rw [compatible_execs_comm]
      exact h
    · have hR0 : is_strong_exec R = false := by simpa using hR
      simp only [hL0, hR0, Bool.false_eq_true, if_false]
      exact ⟨(compatible_execs_iff_eq _ L).2 (Or.inl rfl),
             (compatible_execs_iff_eq _ R).2 (Or.inl rfl)⟩

theorem expression_traits_Binary_full (L R Op Exec : Ty) (b : TraitBundle)
    (h : expression_traits (.Binary L R Op Exec) = some b) :
    ∃ l r, expression_traits L = some l ∧ expression_traits R = some r ∧
      b = { exec := get_strongest_exec Exec [l.exec, r.exec]
            value_type := l.value_type
            iterator := .binary_iterator (get_strongest_exec Exec [l.exec, r.exec]) Op
              l.iterator r.iterator
            const_iterator := .binary_iterator (get_strongest_exec Exec [l.exec, r.exec]) Op
              l.const_iterator r.const_iterator } := by
  cases hL : expression_traits L with
  | none => simp [expression_traits, hL] at h
  | some l =>
    cases hR : expression_traits R with
    | none => simp [expression_traits, hL, hR] at h
    | some r =>
      rw [expression_traits_Binary L R Op Exec l r hL hR] at h
      exact ⟨l, r, rfl, rfl, (Option.some.inj h).symm⟩

theorem expression_traits_Unary_full (T Op Exec : Ty) (b : TraitBundle)
    (h : expression_traits (.Unary T Op Exec) = some b) :
    ∃ t, expression_traits T = some t ∧
      b = { exec := get_strongest_exec Exec [t.exec]
            value_type := t.value_type
            iterator := .unary_iterator (get_strongest_exec Exec [t.exec]) Op t.iterator
            const_iterator :=
              .unary_iterator (get_strongest_exec Exec [t.exec]) Op t.const_iterator } := by
  cases hT : expression_traits T with
  | none => simp [expression_traits, hT] at h
  | some t =>
    rw [expression_traits_Unary T Op Exec t hT] at h
    exact ⟨t, rfl, (Option.some.inj h).symm⟩

theorem declared_preorder_find (t : Ty) (b : TraitBundle)
    (h : expression_traits t = some b) :
    (declared_preorder t).find? is_strong_exec =
      if is_strong_exec b.exec then some b.exec else none := by
  induction t generalizing b with
  | Binary L R Op Exec ihL ihR _ _ =>
    obtain ⟨l, r, hL, hR, rfl⟩ := expression_traits_Binary_full L R Op Exec b h
    simp only [declared_preorder]
    by_cases hD : is_strong_exec Exec = true
    · simp [get_strongest_exec, List.find?, hD]
    · have hD0 : is_strong_exec Exec = false := by simpa using hD
      rw [List.find?_cons_of_neg _ hD, List.find?_append, ihL l hL, ihR r hR,
        get_strongest_exec_pair Exec l.exec r.exec hD0]
      by_cases h1 : is_strong_exec l.exec = true
      · simp [h1]
      · have h10 : is_strong_exec l.exec = false := by simpa using h1
        by_cases h2 : is_strong_exec r.exec = true
        · simp [h10, h2]
        · have h20 : is_strong_exec r.exec = false := by simpa using h2
          simp [h10, h20, is_strong_exec_absorption]
  | Unary T Op Exec ihT _ _ =>
    obtain ⟨t, hT, rfl⟩ := expression_traits_Unary_full T Op Exec b h
    simp only [declared_preorder]
    by_cases hD : is_strong_exec Exec = true
    · simp [get_strongest_exec, List.find?, hD]
    · have hD0 : is_strong_exec Exec = false := by simpa using hD
      rw [List.find?_cons_of_neg _ hD, ihT t hT,
        get_strongest_exec_single Exec t.exec hD0]
      by_cases h1 : is_strong_exec t.exec = true
      · simp [h1]
      · have h10 : is_strong_exec t.exec = false := by simpa using h1
        simp [h10, is_strong_exec_absorption]
  | Scalar T _ =>
    rw [expression_traits_Scalar] at h
    rw [← Option.some.inj h]
    simp [declared_preorder, List.find?, is_strong_exec_absorption]
  | vector T Ctor C Exec _ _ _ _ =>
    rw [expression_traits_vector] at h
    rw [← Option.some.inj h]
    by_cases hD : is_strong_exec Exec = true <;>
      simp [declared_preorder, List.find?, hD]
  | _ => simp [expression_traits] at h

theorem leftmost_leaf_value_type_eq (t : Ty) (b : TraitBundle)
    (h : expression_traits t = some b) :
    leftmost_leaf_value_type t = some b.value_type := by
  induction t generalizing b with
  | Binary L R Op Exec ihL _ _ _ =>
    obtain ⟨l, r, hL, _, rfl⟩ := expression_traits_Binary_full L R Op Exec b h
    simpa [leftmost_leaf_value_type] using ihL l hL
  | Unary T Op Exec ihT _ _ =>
    obtain ⟨t, hT, rfl⟩ := expression_traits_Unary_full T Op Exec b h
    simpa [leftmost_leaf_value_type] using ihT t hT
  | Scalar T _ =>
    rw [expression_traits_Scalar] at h
    rw [← Option.some.inj h]
    rfl
  | vector T Ctor C Exec _ _ _ _ =>
    rw [expression_traits_vector] at h
    rw [← Option.some.inj h]
    rfl
  | _ => simp [expression_traits] at h

theorem exec_extractor_pack_of_forall2 (Ts es : List Ty)
    (h : List.Forall₂ (fun N e => member_exec N = some e) Ts es) :
    exec_extractor_pack Ts = some es := by
  induction h with
  | nil => rfl
  | cons hd _ ih => simp [exec_extractor_pack, exec_extractor, hd, ih]

/-! ## Claims about the execution policy lattice -/

/-- C1: for every non-empty list of tags `T1 :: Ts`, `get_strongest_exec`
returns the first element, left to right, on which `is_strong_exec` holds,
and `absorption_policy` when there is none; on a one-element list `[T1]` it
is `T1` if `T1` is strong and `absorption_policy` otherwise. -/
theorem get_strongest_exec_first_strong (T1 : Ty) (Ts : List Ty) :
    get_strongest_exec T1 Ts =
        ((T1 :: Ts).find? is_strong_exec).getD .absorption_policy ∧
    get_strongest_exec T1 [] =
        (if is_strong_exec T1 then T1 else .absorption_policy) :=
  ⟨get_strongest_exec_eq_find T1 Ts, get_strongest_exec_nil T1⟩

/-- C2: `compatible_execs P1 P2` holds exactly when `P1` is
`absorption_policy`, or `P2` is, or the two are the same; so it holds of
(Absorbing, Parallel) and of (Serial, Serial) and fails of
(Serial, Parallel). -/
theorem compatible_execs_iff (P1 P2 : Ty) :
    (compatible_execs P1 P2 = true ↔
        P1 = .absorption_policy ∨ P2 = .absorption_policy ∨ P1 = P2) ∧
    compatible_execs .absorption_policy .parallel_execution = true ∧
    compatible_execs .serial_execution .parallel_execution = false ∧
    compatible_execs .serial_execution .serial_execution = true :=
  ⟨compatible_execs_iff_eq P1 P2, by decide, by decide, by decide⟩

/-- C3, as stated, fails: `compatible_execs` is false of
(`execution_policy`, `serial_execution`), both among the four tags, although
`execution_policy` is not strong. -/
theorem compatible_execs_false_not_both_strong :
    ¬ (∀ P1 P2 : Ty, is_exec P1 = true → is_exec P2 = true →
        compatible_execs P1 P2 = false →
        is_strong_exec P1 = true ∧ is_strong_exec P2 = true ∧ P1 ≠ P2) := by
  intro h
  have h1 := (h .execution_policy .serial_execution (by decide) (by decide) (by decide)).1
  exact absurd h1 (by decide)

/-- C3, amended: for tags among the four, `compatible_execs P1 P2` is false
only when the two differ and each of them is strong or is
`execution_policy` (neither is `absorption_policy`); so when neither is
`execution_policy` both are strong. -/
theorem compatible_execs_false_only (P1 P2 : Ty)
    (h1 : is_exec P1 = true) (h2 : is_exec P2 = true)
    (h : compatible_execs P1 P2 = false) :
    P1 ≠ P2 ∧
    (is_strong_exec P1 = true ∨ P1 = .execution_policy) ∧
    (is_strong_exec P2 = true ∨ P2 = .execution_policy) ∧
    P1 ≠ .absorption_policy ∧ P2 ≠ .absorption_policy := by
  have hc : ¬ (P1 = .absorption_policy ∨ P2 = .absorption_policy ∨ P1 = P2) := by
    intro hc
    rw [(compatible_execs_iff_eq P1 P2).2 hc] at h
    exact Bool.noConfusion h
  have n1 : P1 ≠ .absorption_policy := fun e => hc (Or.inl e)
  have n2 : P2 ≠ .absorption_policy := fun e => hc (Or.inr (Or.inl e))
  have n3 : P1 ≠ P2 := fun e => hc (Or.inr (Or.inr e))
  refine ⟨n3, ?_, ?_, n1, n2⟩
  · rcases (is_exec_iff P1).1 h1 with e | e | e | e
    · exact Or.inr e
    · exact absurd e n1
    · exact Or.inl ((is_strong_exec_iff P1).2 (Or.inr e))
    · exact Or.inl ((is_strong_exec_iff P1).2 (Or.inl e))
  · rcases (is_exec_iff P2).1 h2 with e | e | e | e
    · exact Or.inr e
    · exact absurd e n2
    · exact Or.inl ((is_strong_exec_iff P2).2 (Or.inr e))
    · exact Or.inl ((is_strong_exec_iff P2).2 (Or.inl e))

/-- Witness for the amended C3 at (Serial, Parallel). -/
theorem compatible_execs_false_only_witness :
    Ty.serial_execution ≠ Ty.parallel_execution ∧
    (is_strong_exec .serial_execution = true ∨
      Ty.serial_execution = Ty.execution_policy) ∧
    (is_strong_exec .parallel_execution = true ∨
      Ty.parallel_execution = Ty.execution_policy) ∧
    Ty.serial_execution ≠ Ty.absorption_policy ∧
    Ty.parallel_execution ≠ Ty.absorption_policy :=
  compatible_execs_false_only .serial_execution .parallel_execution
    (by decide) (by decide) (by decide)

/-! ## Claims about the expression traits registry -/

/-- C4, as stated, fails: a container leaf `vector<double, Ctor, C, Exec>`
declared with `execution_policy` (Unconstrained) has a trait bundle whose
resolved policy is `execution_policy` itself. -/
theorem vector_unconstrained_resolves_unconstrained :
    is_expression
        (.vector (.arith .double) (.named "Ctor") (.named "C") .execution_policy) = true ∧
    is_exec .execution_policy = true ∧
    (expression_traits
        (.vector (.arith .double) (.named "Ctor") (.named "C") .execution_policy)).map
      TraitBundle.exec = some .execution_policy :=
  ⟨rfl, rfl, rfl⟩

/-- C4, amended: whenever the registry gives a node a trait bundle, the
resolved policy of a Binary, Unary or Scalar node is one of
`absorption_policy`, `serial_execution`, `parallel_execution` (never
`execution_policy`), whatever the declared policies in the tree are, and the
resolved policy of a container leaf `vector<T, Ctor, C, Exec>` is its
declared policy `Exec`. -/
theorem expression_traits_exec_resolved (t : Ty) (b : TraitBundle)
    (h : expression_traits t = some b) :
    (∀ T Ctor C Exec, t = .vector T Ctor C Exec → b.exec = Exec) ∧
    ((∀ T Ctor C Exec, t ≠ .vector T Ctor C Exec) →
      b.exec = .absorption_policy ∨ b.exec = .serial_execution ∨
      b.exec = .parallel_execution) := by
  constructor
  · intro T Ctor C Exec ht
    subst ht
    rw [expression_traits_vector] at h
    rw [← Option.some.inj h]
  · intro hv
    cases t with
    | Binary L R Op Exec =>
      obtain ⟨l, r, _, _, he⟩ := expression_traits_Binary_inv L R Op Exec b h
      rw [he]
      exact get_strongest_exec_resolved _ _
    | Unary T Op Exec =>
      obtain ⟨t, _, he⟩ := expression_traits_Unary_inv T Op Exec b h
      rw [he]
      exact get_strongest_exec_resolved _ _
    | Scalar T =>
      rw [expression_traits_Scalar] at h
      rw [← Option.some.inj h]
      exact Or.inl rfl
    | vector T Ctor C Exec => exact absurd rfl (hv T Ctor C Exec)
    | _ => simp [expression_traits] at h

/-- Witness for the amended C4: a Binary node declared Unconstrained over an
Unconstrained container leaf and a scalar resolves to `absorption_policy`. -/
theorem expression_traits_exec_resolved_witness :
    (expression_traits
        (.Binary (.vector (.arith .double) (.named "Ctor") (.named "C") .execution_policy)
          (.Scalar (.arith .double)) (.named "Add") .execution_policy)).map
      TraitBundle.exec = some .absorption_policy ∧
    (Ty.absorption_policy = Ty.absorption_policy ∨
      Ty.absorption_policy = Ty.serial_execution ∨
      Ty.absorption_policy = Ty.parallel_execution) :=
  ⟨rfl,
   (expression_traits_exec_resolved
      (.Binary (.vector (.arith .double) (.named "Ctor") (.named "C") .execution_policy)
        (.Scalar (.arith .double)) (.named "Add") .execution_policy)
      { exec := .absorption_policy
        value_type := .arith .double
        iterator := .binary_iterator .absorption_policy (.named "Add")
          (.container_iterator (.named "C"))
          (.scalar_iterator .absorption_policy (.arith .double))
        const_iterator := .binary_iterator .absorption_policy (.named "Add")
          (.container_const_iterator (.named "C"))
          (.scalar_iterator .absorption_policy (.arith .double)) }
      rfl).2 (fun _ _ _ _ e => Ty.noConfusion e)⟩

/-- C5, as stated, fails: for the Binary node over a container leaf declared
Serial and one declared Parallel the registry does give a trait bundle, with
resolved policy `serial_execution` and a binary traversal type. -/
theorem binary_serial_parallel_has_bundle :
    expression_traits
        (.Binary (.vector (.arith .double) (.named "Ctor") (.named "C") .serial_execution)
          (.vector (.arith .double) (.named "Ctor") (.named "C") .parallel_execution)
          (.named "Add") .absorption_policy) =
      some { exec := .serial_execution
             value_type := .arith .double
             iterator := .binary_iterator .serial_execution (.named "Add")
               (.container_iterator (.named "C")) (.container_iterator (.named "C"))
             const_iterator := .binary_iterator .serial_execution (.named "Add")
               (.container_const_iterator (.named "C"))
               (.container_const_iterator (.named "C")) } :=
  rfl

/-- C5, amended: the two leaves resolve to `serial_execution` and
`parallel_execution`, on which the guard `compatible_execs` is false; the
registry itself applies no guard: for every operator and declared policy
`D` it gives the Binary node a bundle whose resolved policy is `D` if `D`
is strong and `serial_execution` otherwise, whose value type is the left
leaf's, and whose traversal types are the binary variant for that policy
over the two containers' own iterators. -/
theorem binary_serial_parallel_leaves (T1 Ctor1 C1 T2 Ctor2 C2 Op D : Ty) :
    (expression_traits (.vector T1 Ctor1 C1 .serial_execution)).map TraitBundle.exec =
      some .serial_execution ∧
    (expression_traits (.vector T2 Ctor2 C2 .parallel_execution)).map TraitBundle.exec =
      some .parallel_execution ∧
    compatible_execs .serial_execution .parallel_execution = false ∧
    expression_traits
        (.Binary (.vector T1 Ctor1 C1 .serial_execution)
          (.vector T2 Ctor2 C2 .parallel_execution) Op D) =
      some { exec := if is_strong_exec D then D else .serial_execution
             value_type := T1
             iterator := .binary_iterator
               (if is_strong_exec D then D else .serial_execution) Op
               (.container_iterator C1) (.container_iterator C2)
             const_iterator := .binary_iterator
               (if is_strong_exec D then D else .serial_execution) Op
               (.container_const_iterator C1) (.container_const_iterator C2) } := by
  refine ⟨by simp [expression_traits], by simp [expression_traits], by decide, ?_⟩
  rw [expression_traits_Binary _ _ Op D _ _ (expression_traits_vector T1 Ctor1 C1 _)
    (expression_traits_vector T2 Ctor2 C2 _)]
  have hs : is_strong_exec .serial_execution = true := by decide
  by_cases h : is_strong_exec D = true
  · simp [get_strongest_exec, h]
  · have h0 : is_strong_exec D = false := by simpa using h
    simp [get_strongest_exec, h0, hs]

/-- C6: on a list that contains `parallel_execution`, `get_strongest_exec`
returns `serial_execution` if `serial_execution` occurs before the first
`parallel_execution`, and `parallel_execution` otherwise; so
strongest([Serial, Parallel]) = Serial and
strongest([Parallel, Serial]) = Parallel. -/
theorem get_strongest_exec_parallel (T1 : Ty) (Ts : List Ty)
    (h : Ty.parallel_execution ∈ T1 :: Ts) :
    get_strongest_exec T1 Ts =
        (if Ty.serial_execution ∈
              (T1 :: Ts).takeWhile (fun P => !is_same P .parallel_execution)
         then .serial_execution else .parallel_execution) ∧
    get_strongest_exec .serial_execution [.parallel_execution] = .serial_execution ∧
    get_strongest_exec .parallel_execution [.serial_execution] = .parallel_execution := by
  refine ⟨?_, by decide, by decide⟩
  induction Ts generalizing T1 with
  | nil =>
    have e : T1 = .parallel_execution := by
      rcases List.mem_cons.1 h with e | e
      · exact e.symm
      · exact absurd e (List.not_mem_nil _)
    subst e
    decide
  | cons T2 Ts ih =>
    by_cases hp : T1 = .parallel_execution
    · subst hp
      simp [get_strongest_exec, is_strong_exec, is_same, List.takeWhile]
    · by_cases hs : T1 = .serial_execution
      · subst hs
        simp [get_strongest_exec, is_strong_exec, is_same, List.takeWhile]
      · have h0 : is_strong_exec T1 = false := by
          simp [is_strong_exec, is_same, hp, hs]
        have hmem : Ty.parallel_execution ∈ T2 :: Ts := by
          rcases List.mem_cons.1 h with e | e
          · exact absurd e.symm hp
          · exact e
        rw [get_strongest_exec_of_not_strong T1 T2 Ts h0, ih T2 hmem]
        have hk : (!is_same T1 .parallel_execution) = true := by simp [is_same, hp]
        have hne : ¬ Ty.serial_execution = T1 := fun e => hs e.symm
        have ht : List.takeWhile (fun P => !is_same P .parallel_execution) (T1 :: T2 :: Ts) =
            T1 :: List.takeWhile (fun P => !is_same P .parallel_execution) (T2 :: Ts) :=
          List.takeWhile_cons_of_pos hk
        rw [ht]
        simp only [List.mem_cons, hne, false_or]

/-- Witness for C6 on the list [Unconstrained, Serial, Parallel]. -/
theorem get_strongest_exec_parallel_witness :
    Ty.parallel_execution ∈
        [Ty.execution_policy, Ty.serial_execution, Ty.parallel_execution] ∧
    get_strongest_exec .execution_policy [.serial_execution, .parallel_execution] =
        .serial_execution :=
  ⟨by simp,
   (get_strongest_exec_parallel .execution_policy
      [.serial_execution, .parallel_execution] (by simp)).1.trans (by decide)⟩

/-- C7: a Binary node whose declared policy `D` is strong resolves to `D`,
whatever its children resolve to (`get_strongest_exec D [e1, e2] = D` for
all `e1`, `e2`); in particular a Binary node declared Serial whose children
both resolve to `absorption_policy` resolves to `serial_execution`. -/
theorem binary_strong_declared_wins (L R Op D : Ty) (l r : TraitBundle)
    (hD : is_strong_exec D = true)
    (hL : expression_traits L = some l) (hR : expression_traits R = some r) :
    (expression_traits (.Binary L R Op D)).map TraitBundle.exec = some D ∧
    (∀ e1 e2 : Ty, get_strongest_exec D [e1, e2] = D) ∧
    (l.exec = .absorption_policy → r.exec = .absorption_policy →
      (expression_traits (.Binary L R Op .serial_execution)).map TraitBundle.exec =
        some .serial_execution) := by
  refine ⟨?_, fun e1 e2 => get_strongest_exec_of_strong D _ hD, fun _ _ => ?_⟩
  · rw [expression_traits_Binary L R Op D l r hL hR]
    simp [get_strongest_exec_of_strong D _ hD]
  · rw [expression_traits_Binary L R Op _ l r hL hR]
    simp [get_strongest_exec_of_strong Ty.serial_execution _ (by decide)]

/-- Witness for C7: a Binary node declared Serial over two scalars. -/
theorem binary_strong_declared_wins_witness :
    is_strong_exec .serial_execution = true ∧
    (expression_traits
        (.Binary (.Scalar (.arith .int)) (.Scalar (.arith .int)) (.named "Add")
          .serial_execution)).map TraitBundle.exec = some .serial_execution :=
  ⟨by decide,
   (binary_strong_declared_wins (.Scalar (.arith .int)) (.Scalar (.arith .int))
      (.named "Add") .serial_execution _ _ (by decide)
      (expression_traits_Scalar _) (expression_traits_Scalar _)).1⟩

/-- C8: a Binary node whose declared policy is weak resolves to its left
child's resolved policy if that is strong, otherwise to its right child's if
that is strong, otherwise to `absorption_policy`; declared Absorbing with
children Parallel and Absorbing gives Parallel.  A Unary node whose declared
policy is weak resolves to its operand's resolved policy if that is strong
and to `absorption_policy` otherwise. -/
theorem weak_declared_propagates (L R Op D : Ty) (l r : TraitBundle)
    (hD : is_weak_exec D = true)
    (hL : expression_traits L = some l) (hR : expression_traits R = some r) :
    (expression_traits (.Binary L R Op D)).map TraitBundle.exec =
      some (if is_strong_exec l.exec then l.exec
            else if is_strong_exec r.exec then r.exec else .absorption_policy) ∧
    (l.exec = .parallel_execution → r.exec = .absorption_policy →
      (expression_traits (.Binary L R Op .absorption_policy)).map TraitBundle.exec =
        some .parallel_execution) ∧
    (expression_traits (.Unary L Op D)).map TraitBundle.exec =
      some (if is_strong_exec l.exec then l.exec else .absorption_policy) := by
  have h0 : is_strong_exec D = false := is_weak_not_strong D hD
  refine ⟨?_, ?_, ?_⟩
  · rw [expression_traits_Binary L R Op D l r hL hR]
    simp only [Option.map_some', get_strongest_exec_pair D l.exec r.exec h0]
  · intro el er
    rw [expression_traits_Binary L R Op _ l r hL hR]
    simp only [Option.map_some', el, er]
    decide
  · rw [expression_traits_Unary L Op D l hL]
    simp only [Option.map_some', get_strongest_exec_single D l.exec h0]

/-- Witness for C8: declared Unconstrained over a scalar and a Parallel
container leaf, the right child's policy propagates. -/
theorem weak_declared_propagates_witness :
    is_weak_exec .execution_policy = true ∧
    (expression_traits
        (.Binary (.Scalar (.arith .int))
          (.vector (.arith .int) (.named "Ctor") (.named "C") .parallel_execution)
          (.named "Add") .execution_policy)).map TraitBundle.exec =
      some .parallel_execution :=
  ⟨by decide,
   (weak_declared_propagates (.Scalar (.arith .int))
      (.vector (.arith .int) (.named "Ctor") (.named "C") .parallel_execution)
      (.named "Add") .execution_policy _ _ (by decide)
      (expression_traits_Scalar _) (expression_traits_vector _ _ _ _)).1.trans
      (by decide)⟩

/-- C9: for every value type `T`, operator `Op`, container `C`, construct
policy `Ctor` and weak declared policy `D`, the bundle of
`Binary<Scalar<T>, vector<T, Ctor, C, parallel_execution>, Op, D>` has
resolved policy `parallel_execution`, value type `T`, iterator the binary
variant for `parallel_execution` and `Op` over the scalar traversal of `T`
(scalar variant keyed on `absorption_policy`) and `C::iterator`, and const
iterator the same over the scalar traversal and `C::const_iterator`. -/
theorem scalar_plus_parallel_leaf (T Op C Ctor D : Ty)
    (hD : is_weak_exec D = true) :
    expression_traits
        (.Binary (.Scalar T) (.vector T Ctor C .parallel_execution) Op D) =
      some { exec := .parallel_execution
             value_type := T
             iterator := .binary_iterator .parallel_execution Op
               (.scalar_iterator .absorption_policy T) (.container_iterator C)
             const_iterator := .binary_iterator .parallel_execution Op
               (.scalar_iterator .absorption_policy T) (.container_const_iterator C) } := by
  have h0 : is_strong_exec D = false := is_weak_not_strong D hD
  have he : get_strongest_exec D [Ty.absorption_policy, Ty.parallel_execution] =
      .parallel_execution := by
    rw [get_strongest_exec_pair D _ _ h0]
    decide
  rw [expression_traits_Binary _ _ Op D _ _ (expression_traits_Scalar T)
    (expression_traits_vector T Ctor C _)]
  simp only [he]

/-- Witness for C9: `double`, an add operator, declared Unconstrained. -/
theorem scalar_plus_parallel_leaf_witness :
    is_weak_exec .execution_policy = true ∧
    expression_traits
        (.Binary (.Scalar (.arith .double))
          (.vector (.arith .double) (.named "Ctor") (.named "C") .parallel_execution)
          (.named "Add") .execution_policy) =
      some { exec := .parallel_execution
             value_type := .arith .double
             iterator := .binary_iterator .parallel_execution (.named "Add")
               (.scalar_iterator .absorption_policy (.arith .double))
               (.container_iterator (.named "C"))
             const_iterator := .binary_iterator .parallel_execution (.named "Add")
               (.scalar_iterator .absorption_policy (.arith .double))
               (.container_const_iterator (.named "C")) } :=
  ⟨by decide,
   scalar_plus_parallel_leaf (.arith .double) (.named "Add") (.named "C") (.named "Ctor")
     .execution_policy (by decide)⟩

/-! ## Claims about promotion -/

/-- C10: `vectorize_t T` is `Scalar T` when `T` is arithmetic and `T` itself
when it is not; in particular `vectorize_t T = T` for every `T` on which
`is_expression` holds. -/
theorem vectorize_t_spec (T : Ty) :
    (is_arithmetic T = true → vectorize_t T = .Scalar T) ∧
    (is_arithmetic T = false → vectorize_t T = T) ∧
    (is_expression T = true → vectorize_t T = T) := by
  refine ⟨fun h => ?_, fun h => ?_, fun h => ?_⟩
  · simp [vectorize_t, h]
  · simp [vectorize_t, h]
  · simp [vectorize_t, is_expression_not_arithmetic T h]

/-- Witness for C10: `double` is wrapped and `Scalar<double>` is left as is. -/
theorem vectorize_t_spec_witness :
    vectorize_t (.arith .double) = .Scalar (.arith .double) ∧
    vectorize_t (.Scalar (.arith .double)) = .Scalar (.arith .double) :=
  ⟨(vectorize_t_spec (.arith .double)).1 rfl,
   (vectorize_t_spec (.Scalar (.arith .double))).2.2 rfl⟩

/-- C11: promotion is idempotent, `vectorize_t (vectorize_t T) = vectorize_t T`
for every type `T`; for an arithmetic `T` applying it twice gives `Scalar T`,
which is not `Scalar (Scalar T)`. -/
theorem vectorize_t_idempotent (T : Ty) :
    vectorize_t (vectorize_t T) = vectorize_t T ∧
    (is_arithmetic T = true →
      vectorize_t (vectorize_t T) = .Scalar T ∧
      vectorize_t (vectorize_t T) ≠ .Scalar (.Scalar T)) := by
  have hS : is_arithmetic (.Scalar T) = false := rfl
  constructor
  · by_cases h : is_arithmetic T = true
    · simp [vectorize_t, h, hS]
    · simp [vectorize_t, h]
  · intro h
    have e : vectorize_t (vectorize_t T) = .Scalar T := by simp [vectorize_t, h, hS]
    refine ⟨e, ?_⟩
    rw [e]
    intro c
    have c1 : T = .Scalar T := Ty.Scalar.inj c
    rw [c1] at h
    rw [hS] at h
    exact Bool.noConfusion h

/-- Witness for C11 at `int`. -/
theorem vectorize_t_idempotent_witness :
    vectorize_t (vectorize_t (.arith .int)) = .Scalar (.arith .int) ∧
    vectorize_t (vectorize_t (.arith .int)) ≠ .Scalar (.Scalar (.arith .int)) :=
  (vectorize_t_idempotent (.arith .int)).2 rfl

/-- C12: the promoted type `vectorize_t T` satisfies `is_expression` exactly
when `T` is arithmetic or `T` itself satisfies `is_expression`; so a type
that is neither is still rejected by the classifier after promotion. -/
theorem is_expression_vectorize_t (T : Ty) :
    (is_expression (vectorize_t T) = true ↔
      is_arithmetic T = true ∨ is_expression T = true) ∧
    (is_arithmetic T = false → is_expression T = false →
      is_expression (vectorize_t T) = false) := by
  by_cases h : is_arithmetic T = true
  · have e : vectorize_t T = .Scalar T := by simp [vectorize_t, h]
    rw [e]
    refine ⟨⟨fun _ => Or.inl h, fun _ => rfl⟩, fun h0 => ?_⟩
    rw [h] at h0
    exact Bool.noConfusion h0
  · have h0 : is_arithmetic T = false := by simpa using h
    have e : vectorize_t T = T := by simp [vectorize_t, h0]
    rw [e]
    refine ⟨⟨fun hx => Or.inr hx, fun hx => ?_⟩, fun _ hx => hx⟩
    rcases hx with hx | hx
    · exact absurd hx h
    · exact hx

/-- Witness for C12: a pointer to `int` is neither arithmetic nor a node and
stays rejected after promotion. -/
theorem is_expression_vectorize_t_witness :
    is_arithmetic (.pointer (.arith .int)) = false ∧
    is_expression (.pointer (.arith .int)) = false ∧
    is_expression (vectorize_t (.pointer (.arith .int))) = false :=
  ⟨rfl, rfl, (is_expression_vectorize_t (.pointer (.arith .int))).2 rfl rfl⟩

/-- C13: whenever the registry gives a Binary, Unary or Scalar node a trait
bundle, the policy tag keying the Iterator Factory specialisation
(`binary_iterator<exec>`, `unary_iterator<exec>`, `scalar_iterator<exec>`)
of both its iterator and its const iterator is one of `absorption_policy`,
`serial_execution`, `parallel_execution`, never `execution_policy`,
whatever the declared policy and the children's resolved policies are. -/
theorem iterator_factory_exec_resolved (t : Ty) (b : TraitBundle)
    (h : expression_traits t = some b) :
    (∀ L R Op D, t = .Binary L R Op D →
      ∃ e li ri lc rc,
        b.iterator = .binary_iterator e Op li ri ∧
        b.const_iterator = .binary_iterator e Op lc rc ∧
        (e = .absorption_policy ∨ e = .serial_execution ∨ e = .parallel_execution) ∧
        e ≠ .execution_policy) ∧
    (∀ T Op D, t = .Unary T Op D →
      ∃ e bi bc,
        b.iterator = .unary_iterator e Op bi ∧
        b.const_iterator = .unary_iterator e Op bc ∧
        (e = .absorption_policy ∨ e = .serial_execution ∨ e = .parallel_execution) ∧
        e ≠ .execution_policy) ∧
    (∀ T, t = .Scalar T →
      ∃ e,
        b.iterator = .scalar_iterator e T ∧
        b.const_iterator = .scalar_iterator e T ∧
        (e = .absorption_policy ∨ e = .serial_execution ∨ e = .parallel_execution) ∧
        e ≠ .execution_policy) := by
  have hne : ∀ e : Ty,
      (e = .absorption_policy ∨ e = .serial_execution ∨ e = .parallel_execution) →
      e ≠ .execution_policy := by
    intro e he c
    subst c
    rcases he with he | he | he <;> exact Ty.noConfusion he
  refine ⟨?_, ?_, ?_⟩
  · intro L R Op D ht
    subst ht
    obtain ⟨l, r, _, _, rfl⟩ := expression_traits_Binary_full L R Op D b h
    exact ⟨_, _, _, _, _, rfl, rfl, get_strongest_exec_resolved _ _,
      hne _ (get_strongest_exec_resolved _ _)⟩
  · intro T Op D ht
    subst ht
    obtain ⟨x, _, rfl⟩ := expression_traits_Unary_full T Op D b h
    exact ⟨_, _, _, rfl, rfl, get_strongest_exec_resolved _ _,
      hne _ (get_strongest_exec_resolved _ _)⟩
  · intro T ht
    subst ht
    rw [expression_traits_Scalar] at h
    rw [← Option.some.inj h]
    exact ⟨.absorption_policy, rfl, rfl, Or.inl rfl, fun c => Ty.noConfusion c⟩

/-- Witness for C13: a Unary node declared Unconstrained over an
Unconstrained container leaf selects `unary_iterator<absorption_policy>`. -/
theorem iterator_factory_exec_resolved_witness :
    ∃ e bi bc,
      Ty.unary_iterator .absorption_policy (.named "Neg")
          (.container_iterator (.named "C")) = .unary_iterator e (.named "Neg") bi ∧
      Ty.unary_iterator .absorption_policy (.named "Neg")
          (.container_const_iterator (.named "C")) = .unary_iterator e (.named "Neg") bc ∧
      (e = .absorption_policy ∨ e = .serial_execution ∨ e = .parallel_execution) ∧
      e ≠ .execution_policy :=
  (iterator_factory_exec_resolved
      (.Unary (.vector (.arith .double) (.named "Ctor") (.named "C") .execution_policy)
        (.named "Neg") .execution_policy)
      { exec := .absorption_policy
        value_type := .arith .double
        iterator := .unary_iterator .absorption_policy (.named "Neg")
          (.container_iterator (.named "C"))
        const_iterator := .unary_iterator .absorption_policy (.named "Neg")
          (.container_const_iterator (.named "C")) }
      rfl).2.1 _ _ _ rfl

/-- C14: for every node `N` whose resolved policy is one of
`absorption_policy`, `serial_execution`, `parallel_execution`, every `T`,
operator and weak declared policy `D`, both `Binary<Scalar<T>, N, Op, D>` and
`Binary<N, Scalar<T>, Op, D>` resolve to exactly the resolved policy of `N`. -/
theorem scalar_operand_neutral (N T Op D : Ty) (n : TraitBundle)
    (hN : expression_traits N = some n)
    (hn : n.exec = .absorption_policy ∨ n.exec = .serial_execution ∨
      n.exec = .parallel_execution)
    (hD : is_weak_exec D = true) :
    (expression_traits (.Binary (.Scalar T) N Op D)).map TraitBundle.exec = some n.exec ∧
    (expression_traits (.Binary N (.Scalar T) Op D)).map TraitBundle.exec = some n.exec := by
  have h0 : is_strong_exec D = false := is_weak_not_strong D hD
  constructor
  · rw [expression_traits_Binary _ _ Op D _ _ (expression_traits_Scalar T) hN]
    simp only [Option.map_some', get_strongest_exec_pair D _ _ h0]
    rcases hn with e | e | e <;> rw [e] <;> decide
  · rw [expression_traits_Binary _ _ Op D _ _ hN (expression_traits_Scalar T)]
    simp only [Option.map_some', get_strongest_exec_pair D _ _ h0]
    rcases hn with e | e | e <;> rw [e] <;> decide

/-- Witness for C14: a Serial container leaf combined with a scalar. -/
theorem scalar_operand_neutral_witness :
    (expression_traits
        (.Binary (.Scalar (.arith .float))
          (.vector (.arith .float) (.named "Ctor") (.named "C") .serial_execution)
          (.named "Mul") .absorption_policy)).map TraitBundle.exec =
      some .serial_execution ∧
    (expression_traits
        (.Binary (.vector (.arith .float) (.named "Ctor") (.named "C") .serial_execution)
          (.Scalar (.arith .float))
          (.named "Mul") .absorption_policy)).map TraitBundle.exec =
      some .serial_execution :=
  scalar_operand_neutral
    (.vector (.arith .float) (.named "Ctor") (.named "C") .serial_execution)
    (.arith .float) (.named "Mul") .absorption_policy _
    (expression_traits_vector _ _ _ _) (Or.inr (Or.inl rfl)) (by decide)

/-! ## Claims about policy resolution over nodes and trees -/

/-- C15: for a non-empty list of nodes `T :: Ts` whose own exec tags are
`e :: es` (in the same order), `get_exec` gives
`get_strongest_exec e es`; the single-argument specialisation agrees with
the variadic rule applied to a one-element list. -/
theorem get_exec_eq_strongest (T e : Ty) (Ts es : List Ty)
    (h : List.Forall₂ (fun N x => member_exec N = some x) (T :: Ts) (e :: es)) :
    get_exec (T :: Ts) = some (get_strongest_exec e es) ∧
    get_exec_single T = get_exec_variadic T [] ∧
    get_exec [T] = get_exec_variadic T [] := by
  have hsv : get_exec_single T = get_exec_variadic T [] := by
    cases hm : member_exec T <;>
      simp [get_exec_single, get_exec_variadic, exec_extractor, exec_extractor_pack, hm]
  refine ⟨?_, hsv, hsv⟩
  cases h with
  | cons hd tl =>
    have hp := exec_extractor_pack_of_forall2 Ts es tl
    cases Ts with
    | nil =>
      cases tl
      simp [get_exec, get_exec_single, hd]
    | cons T2 Ts2 =>
      simp [get_exec, get_exec_variadic, exec_extractor, hd, hp]

/-- Witness for C15 on a Serial container leaf followed by a scalar. -/
theorem get_exec_eq_strongest_witness :
    get_exec
        [.vector (.arith .int) (.named "Ctor") (.named "C") .serial_execution,
         .Scalar (.arith .int)] =
      some (get_strongest_exec .serial_execution [.absorption_policy]) :=
  (get_exec_eq_strongest
      (.vector (.arith .int) (.named "Ctor") (.named "C") .serial_execution)
      .serial_execution [.Scalar (.arith .int)] [.absorption_policy]
      (List.Forall₂.cons rfl (List.Forall₂.cons rfl List.Forall₂.nil))).1

/-- C16: for every expression tree rooted at a Binary or Unary node that
has a trait bundle, the resolved policy of the root is `get_strongest_exec`
applied to the pre-order list of declared policies of the tree, that is the
first strong declared policy in pre-order, or `absorption_policy` when the
tree declares none. -/
theorem resolved_eq_preorder_scan (t : Ty) (b : TraitBundle)
    (h : expression_traits t = some b)
    (hroot : (∃ L R Op D, t = .Binary L R Op D) ∨ (∃ T Op D, t = .Unary T Op D)) :
    (∃ D rest, declared_preorder t = D :: rest ∧
      b.exec = get_strongest_exec D rest) ∧
    b.exec = ((declared_preorder t).find? is_strong_exec).getD .absorption_policy := by
  have hfind := declared_preorder_find t b h
  have hres : b.exec = .absorption_policy ∨ b.exec = .serial_execution ∨
      b.exec = .parallel_execution := by
    rcases hroot with ⟨L, R, Op, D, rfl⟩ | ⟨T, Op, D, rfl⟩
    · obtain ⟨l, r, _, _, rfl⟩ := expression_traits_Binary_full L R Op D b h
      exact get_strongest_exec_resolved _ _
    · obtain ⟨x, _, rfl⟩ := expression_traits_Unary_full T Op D b h
      exact get_strongest_exec_resolved _ _
  have hscan : b.exec =
      ((declared_preorder t).find? is_strong_exec).getD .absorption_policy := by
    rw [hfind]
    rcases hres with e | e | e <;> rw [e] <;> decide
  refine ⟨?_, hscan⟩
  rcases hroot with ⟨L, R, Op, D, rfl⟩ | ⟨T, Op, D, rfl⟩
  · refine ⟨D, declared_preorder L ++ declared_preorder R, rfl, ?_⟩
    rw [get_strongest_exec_eq_find]
    exact hscan
  · refine ⟨D, declared_preorder T, rfl, ?_⟩
    rw [get_strongest_exec_eq_find]
    exact hscan

/-- Witness for C16: a neutral Binary node over a Unary node declared
Parallel and a Serial container leaf resolves to Parallel, the first strong
declared policy in pre-order. -/
theorem resolved_eq_preorder_scan_witness :
    (expression_traits
        (.Binary
          (.Unary (.Scalar (.arith .int)) (.named "Neg") .parallel_execution)
          (.vector (.arith .int) (.named "Ctor") (.named "C") .serial_execution)
          (.named "Add") .execution_policy)).map TraitBundle.exec =
      some .parallel_execution ∧
    Ty.parallel_execution =
      ((declared_preorder
          (.Binary
            (.Unary (.Scalar (.arith .int)) (.named "Neg") .parallel_execution)
            (.vector (.arith .int) (.named "Ctor") (.named "C") .serial_execution)
            (.named "Add") .execution_policy)).find? is_strong_exec).getD
        .absorption_policy :=
  ⟨rfl,
   (resolved_eq_preorder_scan
      (.Binary
        (.Unary (.Scalar (.arith .int)) (.named "Neg") .parallel_execution)
        (.vector (.arith .int) (.named "Ctor") (.named "C") .serial_execution)
        (.named "Add") .execution_policy)
      { exec := .parallel_execution
        value_type := .arith .int
        iterator := .binary_iterator .parallel_execution (.named "Add")
          (.unary_iterator .parallel_execution (.named "Neg")
            (.scalar_iterator .absorption_policy (.arith .int)))
          (.container_iterator (.named "C"))
        const_iterator := .binary_iterator .parallel_execution (.named "Add")
          (.unary_iterator .parallel_execution (.named "Neg")
            (.scalar_iterator .absorption_policy (.arith .int)))
          (.container_const_iterator (.named "C")) }
      rfl (Or.inl ⟨_, _, _, _, rfl⟩)).2⟩

/-- C17: for every declared policy `D` and policies `L`, `R` with
`compatible_execs L R`, `get_strongest_exec D [L, R]` equals
`get_strongest_exec D [R, L]`; so swapping the operands of a Binary node
whose children are compatible does not change its resolved policy. -/
theorem compatible_swap_same_exec (D L R : Ty)
    (h : compatible_execs L R = true) :
    get_strongest_exec D [L, R] = get_strongest_exec D [R, L] ∧
    (∀ A B Op a b, expression_traits A = some a → expression_traits B = some b →
      a.exec = L → b.exec = R →
      (expression_traits (.Binary A B Op D)).map TraitBundle.exec =
        (expression_traits (.Binary B A Op D)).map TraitBundle.exec) := by
  refine ⟨get_strongest_exec_swap D L R h, ?_⟩
  intro A B Op a b hA hB ea eb
  rw [expression_traits_Binary A B Op D a b hA hB,
    expression_traits_Binary B A Op D b a hB hA]
  simp only [Option.map_some', ea, eb, get_strongest_exec_swap D L R h]

/-- Witness for C17 at declared Unconstrained, children Absorbing and
Parallel. -/
theorem compatible_swap_same_exec_witness :
    compatible_execs .absorption_policy .parallel_execution = true ∧
    get_strongest_exec .execution_policy [.absorption_policy, .parallel_execution] =
      get_strongest_exec .execution_policy [.parallel_execution, .absorption_policy] :=
  ⟨by decide,
   (compatible_swap_same_exec .execution_policy .absorption_policy .parallel_execution
      (by decide)).1⟩

/-- C18: for a weak declared policy `D` and children's resolved policies
`L`, `R` with `compatible_execs L R`, the resolved policy
`E = get_strongest_exec D [L, R]` of the Binary node satisfies
`compatible_execs E L` and `compatible_execs E R`. -/
theorem neutral_parent_compatible (D L R : Ty)
    (hD : is_weak_exec D = true) (h : compatible_execs L R = true) :
    compatible_execs (get_strongest_exec D [L, R]) L = true ∧
    compatible_execs (get_strongest_exec D [L, R]) R = true ∧
    (∀ A B Op a b, expression_traits A = some a → expression_traits B = some b →
      a.exec = L → b.exec = R →
      ∃ n, expression_traits (.Binary A B Op D) = some n ∧
        compatible_execs n.exec a.exec = true ∧
        compatible_execs n.exec b.exec = true) := by
  have hc := get_strongest_exec_compatible D L R hD h
  refine ⟨hc.1, hc.2, ?_⟩
  intro A B Op a b hA hB ea eb
  refine ⟨_, expression_traits_Binary A B Op D a b hA hB, ?_, ?_⟩
  · simp only [ea, eb]
    exact hc.1
  · simp only [ea, eb]
    exact hc.2

/-- Witness for C18 at declared Absorbing, children Unconstrained and
Unconstrained. -/
theorem neutral_parent_compatible_witness :
    compatible_execs
        (get_strongest_exec .absorption_policy [.execution_policy, .execution_policy])
        .execution_policy = true :=
  (neutral_parent_compatible .absorption_policy .execution_policy .execution_policy
      (by decide) (by decide)).1

/-- C19: for every expression tree that has a trait bundle, the value type
of the root is the value type of the leftmost leaf of the tree, whatever
the value types in right subtrees are. -/
theorem value_type_leftmost_leaf (t : Ty) (b : TraitBundle)
    (h : expression_traits t = some b) :
    leftmost_leaf_value_type t = some b.value_type ∧
    (∀ L R Op D R2 Op2 D2 b2, t = .Binary L R Op D →
      expression_traits (.Binary L R2 Op2 D2) = some b2 →
      b2.value_type = b.value_type) := by
  refine ⟨leftmost_leaf_value_type_eq t b h, ?_⟩
  intro L R Op D R2 Op2 D2 b2 ht h2
  subst ht
  have e1 := leftmost_leaf_value_type_eq _ b h
  have e2 := leftmost_leaf_value_type_eq _ b2 h2
  simp only [leftmost_leaf_value_type] at e1 e2
  rw [e1] at e2
  exact (Option.some.inj e2).symm

/-- Witness for C19: `int` on the left, `double` on the right. -/
theorem value_type_leftmost_leaf_witness :
    leftmost_leaf_value_type
        (.Binary (.Unary (.Scalar (.arith .int)) (.named "Neg") .execution_policy)
          (.vector (.arith .double) (.named "Ctor") (.named "C") .execution_policy)
          (.named "Add") .execution_policy) = some (.arith .int) ∧
    (expression_traits
        (.Binary (.Unary (.Scalar (.arith .int)) (.named "Neg") .execution_policy)
          (.vector (.arith .double) (.named "Ctor") (.named "C") .execution_policy)
          (.named "Add") .execution_policy)).map TraitBundle.value_type =
      some (.arith .int) :=
  ⟨(value_type_leftmost_leaf
      (.Binary (.Unary (.Scalar (.arith .int)) (.named "Neg") .execution_policy)
        (.vector (.arith .double) (.named "Ctor") (.named "C") .execution_policy)
        (.named "Add") .execution_policy)
      { exec := .absorption_policy
        value_type := .arith .int
        iterator := .binary_iterator .absorption_policy (.named "Add")
          (.unary_iterator .absorption_policy (.named "Neg")
            (.scalar_iterator .absorption_policy (.arith .int)))
          (.container_iterator (.named "C"))
        const_iterator := .binary_iterator .absorption_policy (.named "Add")
          (.unary_iterator .absorption_policy (.named "Neg")
            (.scalar_iterator .absorption_policy (.arith .int)))
          (.container_const_iterator (.named "C")) }
      rfl).1,
   rfl⟩

/-- C20: `compatible_execs` is symmetric and reflexive:
`compatible_execs P1 P2 = compatible_execs P2 P1` and
`compatible_execs P1 P1 = true`. -/
theorem compatible_execs_symm_refl (P1 P2 : Ty) :
    compatible_execs P1 P2 = compatible_execs P2 P1 ∧
    compatible_execs P1 P1 = true :=
  ⟨compatible_execs_comm P1 P2, (compatible_execs_iff_eq P1 P1).2 (Or.inr (Or.inr rfl))⟩

end vap
